import Mathlib

/-!
# Verification of the metaid-script-decoder repository

Shallow embedding of the Go sources of `metaid-developers/metaid-script-decoder`
(the BTC, MVC and DOGE chain parsers, the common helpers and the raw-transaction
layout decoder) together with proofs settling the frozen claims about the
natural-language specification.

Modelling conventions:
* Go byte slices and Go strings are both modelled as `List Nat`, every element
  standing for one byte (`< 256` where it matters).  `strings.ToLower`,
  `strings.TrimSpace` are modelled on the ASCII range, which is the only range
  the decoders compare against.
* Go `int` is modelled as Lean `Int` with 64-bit two's-complement wrap-around
  made explicit (`toInt64`) exactly where the Go arithmetic can overflow.
* External collaborators (the `btcsuite` script tokenizer, the address
  classifier `ExtractPkScriptAddrs`, `wire.MsgTx` hashing and SHA-256 from the
  Go standard library) are abstracted as parameters; everything written in this
  repository is embedded from its source.
* Fallible Go code returns `Option`/`Except`; a Go run-time slice-bounds
  failure is the distinguished value `GoFail.oob`, kept separate from the
  `error` values the code deliberately returns.
-/

/-- Bytes of an ASCII literal, used to transcribe the Go string constants. -/
def ascii (s : String) : List Nat := s.data.map Char.toNat

/-- All elements of the list are bytes. -/
def ValidBytes (bs : List Nat) : Prop := ∀ b ∈ bs, b < 256

instance : DecidablePred ValidBytes := fun bs =>
  inferInstanceAs (Decidable (∀ b ∈ bs, b < 256))

/-- ASCII lower-casing of one byte (models `strings.ToLower` on the ASCII
range, the only range the decoder ever compares against). -/
def toLowerByte (b : Nat) : Nat := if 65 ≤ b ∧ b ≤ 90 then b + 32 else b

/-- Models `strings.ToLower` for ASCII data. -/
def lowerBytes (bs : List Nat) : List Nat := bs.map toLowerByte

/-- ASCII white-space bytes trimmed by `strings.TrimSpace`. -/
def isSpaceByte (b : Nat) : Bool := b = 32 || (9 ≤ b && b ≤ 13)

/-- Models `strings.TrimSpace` for ASCII data. -/
def trimSpace (bs : List Nat) : List Nat :=
  ((bs.dropWhile isSpaceByte).reverse.dropWhile isSpaceByte).reverse

/-- `common.NormalizePath`: `strings.ToLower(strings.TrimSpace(path))`. -/
def NormalizePath (p : List Nat) : List Nat := lowerBytes (trimSpace p)

/-- `common.NormalizeContentType`: default `application/json` for the empty
string, otherwise lower-cased and trimmed. -/
def NormalizeContentType (ct : List Nat) : List Nat :=
  if ct = [] then ascii "application/json" else lowerBytes (trimSpace ct)

/-- Models `strings.Split(s, "/")`: split a byte string at every `/` (byte 47). -/
def splitSlash : List Nat → List (List Nat)
  | [] => [[]]
  | c :: rest =>
    if c = 47 then [] :: splitSlash rest
    else
      match splitSlash rest with
      | s :: ss => (c :: s) :: ss
      | [] => [[c]]

/-- Models `strings.Join(parts, "/")`. -/
def joinSlash : List (List Nat) → List Nat
  | [] => []
  | [x] => x
  | x :: xs => x ++ 47 :: joinSlash xs

/-- `common.GetParentPath`: split the path on `/`; fewer than three pieces give
the empty string, otherwise all pieces but the last are re-joined. -/
def GetParentPath (p : List Nat) : List Nat :=
  let arr := splitSlash p
  if arr.length < 3 then [] else joinSlash arr.dropLast

/-- Go `hex` package digit table (lower case). -/
def hexDigitChar (n : Nat) : Nat := if n < 10 then 48 + n else 87 + n

/-- Models `hex.EncodeToString` (result again as ASCII bytes). -/
def hexEncode : List Nat → List Nat
  | [] => []
  | b :: rest => hexDigitChar (b / 16) :: hexDigitChar (b % 16) :: hexEncode rest

/-- Value of one ASCII hex digit. -/
def hexCharVal (c : Nat) : Nat :=
  if 48 ≤ c ∧ c ≤ 57 then c - 48
  else if 97 ≤ c ∧ c ≤ 102 then c - 87
  else if 65 ≤ c ∧ c ≤ 70 then c - 55
  else 0

/-- Models `hex.DecodeString` on well-formed input (the repository only decodes
strings it has itself hex-encoded, and discards the error return). -/
def hexDecode : List Nat → List Nat
  | a :: b :: rest => (hexCharVal a * 16 + hexCharVal b) :: hexDecode rest
  | _ => []

/-- `common.CalculateMetaId`: hex-encoded SHA-256 of the address bytes, the
empty string for an empty address.  `sha` abstracts `crypto/sha256`. -/
def CalculateMetaId (sha : List Nat → List Nat) (address : List Nat) : List Nat :=
  if address = [] then [] else hexEncode (sha address)

/-- `reverseBytes` from `mvc/parser.go`. -/
def reverseBytes (s : List Nat) : List Nat := s.reverse

/-- `doubleHashB`: SHA-256 applied twice. -/
def doubleHashB (sha : List Nat → List Nat) (b : List Nat) : List Nat := sha (sha b)

/-- `getTxID`: hex-decode, double SHA-256, reverse, hex-encode. -/
def getTxID (sha : List Nat → List Nat) (hexString : List Nat) : List Nat :=
  hexEncode (reverseBytes (doubleHashB sha (hexDecode hexString)))

/-- `uint32ToLittleEndianBytes`: the four little-endian bytes of `n mod 2^32`. -/
def uint32ToLE (n : Nat) : List Nat :=
  [n % 256, n / 256 % 256, n / 256 ^ 2 % 256, n / 256 ^ 3 % 256]

/-- `binary.LittleEndian.Uint32` on a 4-byte slice. -/
def leUint32 : List Nat → Nat
  | b0 :: b1 :: b2 :: b3 :: _ => b0 + 256 * b1 + 256 ^ 2 * b2 + 256 ^ 3 * b3
  | _ => 0

/-- Two's-complement wrap of an integer into the signed 64-bit range, making
the Go `int` (64-bit) overflow in `decodeVarInt`'s 8-byte branch explicit. -/
def toInt64 (n : Int) : Int := (n + 2 ^ 63) % 2 ^ 64 - 2 ^ 63

/-- `decodeVarInt` from `mvc/parser.go`: Bitcoin compact-size decoding,
returning `(value, bytes consumed)` and the `(0, 0)` sentinel on a buffer
shorter than the prefix demands.  The value is a Go `int`; the 8-byte form is
assembled with 64-bit arithmetic, hence the final two's-complement wrap. -/
def decodeVarInt (buf : List Nat) : Int × Nat :=
  match buf with
  | [] => (0, 0)
  | b0 :: rest =>
    if b0 ≤ 0xfc then ((b0 : Int), 1)
    else if b0 = 0xfd then
      match rest with
      | b1 :: b2 :: _ => (((b2 * 256 + b1 : Nat) : Int), 3)
      | _ => (0, 0)
    else if b0 = 0xfe then
      match rest with
      | b1 :: b2 :: b3 :: b4 :: _ =>
        (((b4 * 256 ^ 3 + b3 * 256 ^ 2 + b2 * 256 + b1 : Nat) : Int), 5)
      | _ => (0, 0)
    else
      match rest with
      | b1 :: b2 :: b3 :: b4 :: b5 :: b6 :: b7 :: b8 :: _ =>
        (toInt64 ((b8 * 256 ^ 7 + b7 * 256 ^ 6 + b6 * 256 ^ 5 + b5 * 256 ^ 4 +
            b4 * 256 ^ 3 + b3 * 256 ^ 2 + b2 * 256 + b1 : Nat) : Int), 9)
      | _ => (0, 0)

/-- The compact-size encoding in its appropriate prefix form, as the spec
describes it (first byte ≤ 0xfc direct; 0xfd + 2-byte LE; 0xfe + 4-byte LE;
0xff + 8-byte LE).  Stated from the spec for the round-trip claim. -/
def encodeVarInt (v : Nat) : List Nat :=
  if v ≤ 0xfc then [v]
  else if v ≤ 0xffff then [0xfd, v % 256, v / 256 % 256]
  else if v ≤ 0xffffffff then
    [0xfe, v % 256, v / 256 % 256, v / 256 ^ 2 % 256, v / 256 ^ 3 % 256]
  else
    [0xff, v % 256, v / 256 % 256, v / 256 ^ 2 % 256, v / 256 ^ 3 % 256,
      v / 256 ^ 4 % 256, v / 256 ^ 5 % 256, v / 256 ^ 6 % 256, v / 256 ^ 7 % 256]

-- sanity checks while developing
example : decodeVarInt (encodeVarInt 0xfd) = (0xfd, 3) := by decide
example : decodeVarInt (encodeVarInt 0x10000) = (0x10000, 5) := by decide
example : GetParentPath (ascii "/protocols/simplebuzz") = ascii "/protocols" := by decide
example : GetParentPath (ascii "/a") = ascii "" := by decide
example : GetParentPath (ascii "/") = [] := by decide
example : hexDecode (hexEncode [0, 171, 255]) = [0, 171, 255] := by decide

/-!
## MVC raw-transaction layout decoder (`mvc/parser.go`)
-/

/-- Outcome of a failing Go code path: an `error` value the code returns, or a
run-time slice-bounds failure (`oob`) where the code accesses bytes outside the
buffer without checking. -/
inductive GoFail where
  | msg : String → GoFail
  | oob : GoFail
  deriving DecidableEq, Repr

instance {ε α : Type} [DecidableEq ε] [DecidableEq α] : DecidableEq (Except ε α)
  | .ok a, .ok b =>
    if h : a = b then isTrue (by rw [h]) else isFalse (by simp [h])
  | .ok _, .error _ => isFalse (by simp)
  | .error _, .ok _ => isFalse (by simp)
  | .error a, .error b =>
    if h : a = b then isTrue (by rw [h]) else isFalse (by simp [h])

/-- Go slice expression `buf[lo:hi]`: fails (`oob`) unless `0 ≤ lo ≤ hi ≤ len`. -/
def sliceI (buf : List Nat) (lo hi : Int) : Except GoFail (List Nat) :=
  if 0 ≤ lo ∧ lo ≤ hi ∧ hi ≤ (buf.length : Int) then
    .ok ((buf.drop lo.toNat).take (hi - lo).toNat)
  else
    .error .oob

/-- `TxIn` of the manually decoded raw transaction: all fields raw byte slices. -/
structure RTxIn where
  txid : List Nat
  vout : List Nat
  scriptSig : List Nat
  sequence : List Nat
  deriving DecidableEq, Repr

/-- `TxOut` of the manually decoded raw transaction. -/
structure RTxOut where
  amount : List Nat
  lockScript : List Nat
  deriving DecidableEq, Repr

/-- `RawTransaction` from `mvc/parser.go`. -/
structure RawTransaction where
  txID : List Nat
  version : List Nat
  vins : List RTxIn
  vouts : List RTxOut
  lockTime : List Nat
  inSize : Nat
  outSize : Nat
  deriving DecidableEq, Repr

/-- The per-input body of `decodeRawTransaction`'s first loop, iterated `n`
times.  Mirrors the Go code exactly: the 32-byte txid and the 4-byte vout are
bounds-checked with an explicit error, while the signature script and the
4-byte sequence are sliced without any check (an out-of-range extent is a
run-time failure, not a returned error). -/
def decodeIns (buf : List Nat) : Nat → Int → Except GoFail (List RTxIn × Int)
  | 0, index => .ok ([], index)
  | n + 1, index =>
    if index + 32 > (buf.length : Int) then
      .error (.msg "invalid transaction data length")
    else
      match sliceI buf index (index + 32) with
      | .error e => .error e
      | .ok txid =>
        if index + 32 + 4 > (buf.length : Int) then
          .error (.msg "invalid transaction data length")
        else
          match sliceI buf (index + 32) (index + 32 + 4) with
          | .error e => .error e
          | .ok vout =>
            match sliceI buf (index + 36) buf.length with
            | .error e => .error e
            | .ok tail =>
              match sliceI buf (index + 36 + (decodeVarInt tail).2)
                  (index + 36 + (decodeVarInt tail).2 + (decodeVarInt tail).1) with
              | .error e => .error e
              | .ok scriptSig =>
                match sliceI buf (index + 36 + (decodeVarInt tail).2 + (decodeVarInt tail).1)
                    (index + 36 + (decodeVarInt tail).2 + (decodeVarInt tail).1 + 4) with
                | .error e => .error e
                | .ok seq =>
                  match decodeIns buf n
                      (index + 36 + (decodeVarInt tail).2 + (decodeVarInt tail).1 + 4) with
                  | .error e => .error e
                  | .ok rest =>
                    .ok (⟨txid, vout, scriptSig, seq⟩ :: rest.1, rest.2)

/-- The per-output body of `decodeRawTransaction`'s second loop: amount,
lock-script length, zero-length check, bounds-checked lock script. -/
def decodeOuts (buf : List Nat) : Nat → Int → Except GoFail (List RTxOut × Int)
  | 0, index => .ok ([], index)
  | n + 1, index =>
    if index + 8 > (buf.length : Int) then
      .error (.msg "invalid transaction data length")
    else
      match sliceI buf index (index + 8) with
      | .error e => .error e
      | .ok amount =>
        match sliceI buf (index + 8) buf.length with
        | .error e => .error e
        | .ok tail =>
          if (decodeVarInt tail).1 = 0 then
            .error (.msg "invalid transaction data: empty lockScript")
          else if index + 8 + (decodeVarInt tail).2 + (decodeVarInt tail).1 >
              (buf.length : Int) then
            .error (.msg "invalid transaction data length")
          else
            match sliceI buf (index + 8 + (decodeVarInt tail).2)
                (index + 8 + (decodeVarInt tail).2 + (decodeVarInt tail).1) with
            | .error e => .error e
            | .ok lockScript =>
              match decodeOuts buf n
                  (index + 8 + (decodeVarInt tail).2 + (decodeVarInt tail).1) with
              | .error e => .error e
              | .ok rest => .ok (⟨amount, lockScript⟩ :: rest.1, rest.2)

/-- `decodeRawTransaction` without the final TxID assignment: version, input
count, inputs, output count, outputs, lock time, and the no-leftover check. -/
def decodeRawTxCore (txBytes : List Nat) : Except GoFail RawTransaction :=
  if txBytes.length = 0 then .error (.msg "invalid transaction data")
  else if (0 + 4 : Int) > (txBytes.length : Int) then
    .error (.msg "invalid transaction data length")
  else
    match sliceI txBytes 0 4 with
    | .error e => .error e
    | .ok version =>
      match sliceI txBytes 4 txBytes.length with
      | .error e => .error e
      | .ok tail =>
        if (decodeVarInt tail).1 = 0 then
          .error (.msg "invalid transaction data: no inputs")
        else
          match decodeIns txBytes (decodeVarInt tail).1.toNat
              (4 + (decodeVarInt tail).2) with
          | .error e => .error e
          | .ok ins =>
            match sliceI txBytes ins.2 txBytes.length with
            | .error e => .error e
            | .ok tail2 =>
              if (decodeVarInt tail2).1 = 0 then
                .error (.msg "invalid transaction data: no outputs")
              else
                match decodeOuts txBytes (decodeVarInt tail2).1.toNat
                    (ins.2 + (decodeVarInt tail2).2) with
                | .error e => .error e
                | .ok outs =>
                  if outs.2 + 4 > (txBytes.length : Int) then
                    .error (.msg "invalid transaction data length")
                  else
                    match sliceI txBytes outs.2 (outs.2 + 4) with
                    | .error e => .error e
                    | .ok lockTime =>
                      if outs.2 + 4 ≠ (txBytes.length : Int) then
                        .error (.msg "too much transaction data")
                      else
                        .ok ⟨[], version, ins.1, outs.1, lockTime,
                          ((decodeVarInt tail).1 % (2 ^ 64)).toNat,
                          ((decodeVarInt tail2).1 % (2 ^ 64)).toNat⟩

/-- `getTxNewRawByte`: the restructured byte sequence hashed for version ≥ 10,
built by successive appends exactly as in the Go code. -/
def getTxNewRawByte (sha : List Nat → List Nat) (t : RawTransaction) : List Nat :=
  let newInputsByte :=
    t.vins.foldl (fun acc i => acc ++ i.txid ++ i.vout ++ i.sequence) []
  let newInputs2Byte := t.vins.foldl (fun acc i => acc ++ sha i.scriptSig) []
  let newOutputsByte :=
    t.vouts.foldl (fun acc o => acc ++ o.amount ++ sha o.lockScript) []
  t.version ++ t.lockTime ++ uint32ToLE t.inSize ++ uint32ToLE t.outSize ++
    sha newInputsByte ++ sha newInputs2Byte ++ sha newOutputsByte

/-- `decodeRawTransaction`: the layout decode followed by the TxID assignment,
which branches on the 4-byte little-endian version field at threshold 10. -/
def decodeRawTransaction (sha : List Nat → List Nat) (txBytes : List Nat) :
    Except GoFail RawTransaction :=
  (decodeRawTxCore txBytes).map fun t =>
    { t with
      txID :=
        if leUint32 t.version < 10 then getTxID sha (hexEncode txBytes)
        else getTxID sha (hexEncode (getTxNewRawByte sha t)) }

/-- `calculateTxHash` from `mvc/parser.go`, applied to the serialized
transaction bytes (the Go function first re-serializes the deserialized
transaction and then hands exactly these bytes to `decodeRawTransaction`). -/
def calculateTxHash (sha : List Nat → List Nat) (txBytes : List Nat) :
    Except GoFail (List Nat) :=
  (decodeRawTransaction sha txBytes).map fun rawTx =>
    if leUint32 rawTx.version < 10 then rawTx.txID
    else getTxID sha (hexEncode (getTxNewRawByte sha rawTx))

-- development sanity check: a minimal valid 61-byte transaction
example :
    (decodeRawTxCore
      ([1, 0, 0, 0] ++ [1] ++ List.replicate 32 0 ++ [0, 0, 0, 0] ++ [0] ++
        [0, 0, 0, 0] ++ [1] ++ List.replicate 8 0 ++ [1, 81] ++
        [0, 0, 0, 0])).isOk = true := by decide

-- development sanity check: C2 failing input reaches the unchecked sequence read
example :
    decodeRawTxCore
      ([1, 0, 0, 0] ++ [1] ++ List.replicate 32 0 ++ [0, 0, 0, 0] ++ [0xfd, 0]) =
    .error .oob := by decide

/-!
## PIN record and script-token model (`decoder/pin.go`, btc/mvc/doge parsers)

The external `txscript` tokenizer is abstracted as the token sequence it
yields: each `Tok` carries the opcode byte and the push data (`none` models a
Go `nil` data slice, as returned for non-push opcodes), and a `TokStream`
additionally records whether the tokenizer stops with an error after the
listed tokens (`tokenizer.Err() != nil` once exhausted).
-/

/-- One token of the external script tokenizer. -/
structure Tok where
  opcode : Nat
  data : Option (List Nat)
  deriving DecidableEq, Repr

/-- A tokenizer run: the yielded tokens, and whether it ends in an error. -/
structure TokStream where
  toks : List Tok
  errAtEnd : Bool
  deriving DecidableEq, Repr

/-- Go `string(data)` / `append(body, data...)` of a possibly-nil byte slice. -/
def dStr (d : Option (List Nat)) : List Nat := d.getD []

def OP_FALSE : Nat := 0
def OP_PUSHDATA1 : Nat := 76
def OP_PUSHDATA2 : Nat := 77
def OP_PUSHDATA4 : Nat := 78
def TaprootAnnexTag : Nat := 80
def OP_IF : Nat := 99
def OP_ENDIF : Nat := 104
def OP_RETURN : Nat := 106
def OP_CHECKSIGVERIFY : Nat := 173

/-- Decimal digits of a natural number (for the Go `%d` format verb). -/
def natToDecCore : Nat → Nat → List Nat
  | 0, _ => []
  | fuel + 1, n => if n < 10 then [48 + n] else natToDecCore fuel (n / 10) ++ [48 + n % 10]

/-- `fmt.Sprintf("%d", n)` for a non-negative value. -/
def natToDec (n : Nat) : List Nat := natToDecCore (n + 1) n

/-- `fmt.Sprintf("%d", n)` for a Go signed integer. -/
def intToDec (n : Int) : List Nat :=
  if n < 0 then 45 :: natToDec (-n).toNat else natToDec n.toNat

/-- The PIN record (`decoder.Pin`); field defaults are the Go zero values
given by `&decoder.Pin{}`. -/
structure Pin where
  id : List Nat := []
  ownerAddress : List Nat := []
  ownerMetaId : List Nat := []
  offset : Nat := 0
  location : List Nat := []
  output : List Nat := []
  outputValue : Int := 0
  operation : List Nat := []
  path : List Nat := []
  parentPath : List Nat := []
  originalPath : List Nat := []
  host : List Nat := []
  encryption : List Nat := []
  version : List Nat := []
  contentType : List Nat := []
  contentBody : List Nat := []
  contentLength : Nat := 0
  txID : List Nat := []
  vout : Nat := 0
  chainName : List Nat := []
  inscriptionTxIndex : Nat := 0
  deriving DecidableEq, Repr

/-- The field-list part shared verbatim by `btc.parseOnePin` (lines 222-267)
and the first `mvc.parseOnePin` (lines 124-171): operation folding, arity
guards and positional normalization with defaults. -/
def stdPinFromFields (infoList : List (Option (List Nat))) : Option Pin :=
  if infoList.length < 1 then none
  else if lowerBytes (dStr (infoList.getD 0 none)) = ascii "revoke" ∧
      infoList.length < 5 then none
  else if infoList.length < 6 ∧
      lowerBytes (dStr (infoList.getD 0 none)) ≠ ascii "revoke" then none
  else
    some
      { operation := lowerBytes (dStr (infoList.getD 0 none))
        path := NormalizePath (dStr (infoList.getD 1 none))
        parentPath := GetParentPath (NormalizePath (dStr (infoList.getD 1 none)))
        encryption :=
          if 2 < infoList.length ∧ (infoList.getD 2 none).isSome then
            dStr (infoList.getD 2 none)
          else ascii "0"
        version :=
          if 3 < infoList.length ∧ (infoList.getD 3 none).isSome then
            dStr (infoList.getD 3 none)
          else ascii "0"
        contentType :=
          if 4 < infoList.length ∧ (infoList.getD 4 none).isSome then
            NormalizeContentType (dStr (infoList.getD 4 none))
          else ascii "application/json"
        contentBody := (infoList.drop 5).foldl (fun acc d => acc ++ dStr d) []
        contentLength :=
          ((infoList.drop 5).foldl (fun acc d => acc ++ dStr d) []).length }

/-- The collection loop of `btc.parseOnePin`: gather token data up to
`OP_ENDIF`, rejecting any field longer than 520 bytes, and failing if the
tokenizer ended with an error before an `OP_ENDIF` was seen. -/
def collectFields : List Tok → Bool → Option (List (Option (List Nat)))
  | [], err => if err then none else some []
  | t :: rest, err =>
    if t.opcode = OP_ENDIF then some []
    else if 520 < (dStr t.data).length then none
    else (collectFields rest err).map (t.data :: ·)

/-- `btc.parseOnePin` over a token stream. -/
def btcParseOnePin (toks : List Tok) (err : Bool) : Option Pin :=
  (collectFields toks err).bind stdPinFromFields

/-- The collection loop of the first `mvc.parseOnePin` (lines 111-126): gather
every remaining token's data — no `OP_ENDIF` terminator and no size check. -/
def mvc1Collect : List Tok → Bool → Option (List (Option (List Nat)))
  | [], err => if err then none else some []
  | t :: rest, err => (mvc1Collect rest err).map (t.data :: ·)

/-- The first `mvc.parseOnePin` over a token stream. -/
def mvc1ParseOnePin (toks : List Tok) (err : Bool) : Option Pin :=
  (mvc1Collect toks err).bind stdPinFromFields

/-- The `parseOpReturnScript` scan loop shared by btc and the first mvc
parser: find `OP_RETURN`, demand the next push to hex-encode to the protocol
id, and hand the remaining tokens to the continuation `k`. -/
def scanOpReturn (pid : List Nat) (k : List Tok → Bool → Option Pin) :
    List Tok → Bool → Option Pin
  | [], _ => none
  | t :: rest, err =>
    if t.opcode = OP_RETURN then
      match rest with
      | [] => none
      | t2 :: rest2 =>
        if hexEncode (dStr t2.data) ≠ pid then none else k rest2 err
    else scanOpReturn pid k rest err

/-- `btc.parseOpReturnScript` given the tokenizer run of the locking script. -/
def btcParseOpReturnScript (tokenize : List Nat → TokStream) (pid : List Nat)
    (pkScript : List Nat) : Option Pin :=
  let s := tokenize pkScript
  scanOpReturn pid btcParseOnePin s.toks s.errAtEnd

/-- First-version `mvc.parseOpReturnScript` given the tokenizer run. -/
def mvc1ParseOpReturnScript (tokenize : List Nat → TokStream) (pid : List Nat)
    (pkScript : List Nat) : Option Pin :=
  let s := tokenize pkScript
  scanOpReturn pid mvc1ParseOnePin s.toks s.errAtEnd

/-- `btc.parseWitnessScript`: scan for `OP_FALSE OP_IF <protocol-id>` and hand
the remaining tokens to `parseOnePin`. -/
def scanWitnessEnv (pid : List Nat) : List Tok → Bool → Option Pin
  | [], _ => none
  | t :: rest, err =>
    if t.opcode = OP_FALSE then
      match rest with
      | [] => none
      | t2 :: rest2 =>
        if t2.opcode ≠ OP_IF then none
        else
          match rest2 with
          | [] => none
          | t3 :: rest3 =>
            if hexEncode (dStr t3.data) ≠ pid then none
            else btcParseOnePin rest3 err
    else scanWitnessEnv pid rest err

/-- `btc.parseWitnessScript` on the raw witness-script bytes. -/
def btcParseWitnessScript (tokenize : List Nat → TokStream) (pid : List Nat)
    (ws : List Nat) : Option Pin :=
  let s := tokenize ws
  scanWitnessEnv pid s.toks s.errAtEnd

-- development sanity checks
example :
    (btcParseOnePin
      [⟨1, some (ascii "revoke")⟩, ⟨1, some (ascii "/a/b")⟩, ⟨1, some (ascii "0")⟩,
        ⟨1, some (ascii "1")⟩, ⟨1, some (ascii "t")⟩, ⟨OP_ENDIF, none⟩] false).isSome =
    true := by decide
example :
    (btcParseOnePin
      [⟨1, some (ascii "create")⟩, ⟨1, some (ascii "/A/B ")⟩, ⟨1, some (ascii "0")⟩,
        ⟨1, some (ascii "1")⟩, ⟨1, some (ascii "T/P")⟩, ⟨1, some (ascii "hi")⟩,
        ⟨OP_ENDIF, none⟩] false).map (fun p => (p.path, p.parentPath, p.contentBody)) =
    some (ascii "/a/b", ascii "/a", ascii "hi") := by decide

/-!
## BTC transaction-level scanning (`btc/parser.go`)

`wire.MsgTx` deserialization, `txscript.ExtractPkScriptAddrs` and
`MsgTx.TxHash` are external collaborators; the transaction is modelled as the
structure the deserializer hands back, the classifier as a parameter `cls`
returning a class-name string and encoded addresses, and the transaction hash
as the parameter `txHash`.
-/

/-- Result of the external address classifier `ExtractPkScriptAddrs`. -/
structure ClassInfo where
  className : List Nat
  addresses : List (List Nat)
  deriving DecidableEq, Repr

/-- A transaction output as produced by the external deserializer. -/
structure WTxOut where
  pkScript : List Nat
  value : Int
  deriving DecidableEq, Repr

/-- A transaction input as produced by the external deserializer. -/
structure WTxIn where
  witness : List (List Nat)
  deriving DecidableEq, Repr

/-- A deserialized transaction. -/
structure WMsgTx where
  txIns : List WTxIn
  txOuts : List WTxOut
  deriving DecidableEq, Repr

/-- The witness checks and witness-script selection of `parseWitnessPins`
(btc/parser.go lines 110-134): skip stacks of at most one item, stacks whose
last item is at most one byte, and two-item stacks whose last item starts with
the taproot annex tag; then the selected script is the last item when it
starts with the annex tag and the second-to-last item otherwise, an empty
selection yielding nothing. -/
def witnessScriptOf (witness : List (List Nat)) : Option (List Nat) :=
  if witness.length ≤ 1 then none
  else if (witness.getLastD []).length ≤ 1 then none
  else if witness.length = 2 ∧ (witness.getLastD []).headD 0 = TaprootAnnexTag then
    none
  else if (witness.getLastD []).headD 0 = TaprootAnnexTag then
    if (witness.getLastD []).length = 0 then none else some (witness.getLastD [])
  else if 2 ≤ witness.length then
    if (witness.getD (witness.length - 2) []).length = 0 then none
    else some (witness.getD (witness.length - 2) [])
  else none

/-- `btc.getWitnessOwner`: output 0's first classified address; the
multi-input/multi-output branch leaves value and location index zero. -/
def getWitnessOwner (cls : List Nat → ClassInfo) (tx : WMsgTx) (inIdx : Nat) :
    List Nat × Nat × Int × Int :=
  if tx.txIns.length = 1 ∨ tx.txOuts.length = 1 ∨ inIdx = 0 then
    match tx.txOuts with
    | [] => ([], 0, 0, 0)
    | out0 :: _ =>
      match (cls out0.pkScript).addresses with
      | [] => ([], 0, 0, 0)
      | a0 :: _ => (a0, 0, out0.value, 0)
  else
    match tx.txOuts with
    | [] => ([], 0, 0, 0)
    | out0 :: _ =>
      match (cls out0.pkScript).addresses with
      | [] => ([], 0, 0, 0)
      | a0 :: _ => (a0, 0, 0, 0)

/-- The per-input body of `btc.parseWitnessPins` (lines 109-164): witness
selection, envelope parse, owner resolution with the `"unknown"` fallback, and
the ownership/location field assignments. -/
def witnessPinOf (sha : List Nat → List Nat) (tokenize : List Nat → TokStream)
    (cls : List Nat → ClassInfo) (pid txHash : List Nat) (tx : WMsgTx)
    (i : Nat) (txIn : WTxIn) : Option Pin :=
  match witnessScriptOf txIn.witness with
  | none => none
  | some ws =>
    match btcParseWitnessScript tokenize pid ws with
    | none => none
    | some pin =>
      some
        { pin with
          id := txHash ++ [105] ++
            natToDec (if (getWitnessOwner cls tx i).1 = [] then 0
              else (getWitnessOwner cls tx i).2.1)
          txID := txHash
          vout := if (getWitnessOwner cls tx i).1 = [] then 0
            else (getWitnessOwner cls tx i).2.1
          ownerAddress := if (getWitnessOwner cls tx i).1 = [] then ascii "unknown"
            else (getWitnessOwner cls tx i).1
          ownerMetaId := CalculateMetaId sha
            (if (getWitnessOwner cls tx i).1 = [] then ascii "unknown"
              else (getWitnessOwner cls tx i).1)
          chainName := ascii "btc"
          inscriptionTxIndex := i
          location := txHash ++ [58] ++
            natToDec (if (getWitnessOwner cls tx i).1 = [] then 0
              else (getWitnessOwner cls tx i).2.1) ++ [58] ++
            intToDec (getWitnessOwner cls tx i).2.2.2
          offset := if (getWitnessOwner cls tx i).1 = [] then 0
            else (getWitnessOwner cls tx i).2.1
          output := txHash ++ [58] ++
            natToDec (if (getWitnessOwner cls tx i).1 = [] then 0
              else (getWitnessOwner cls tx i).2.1)
          outputValue := (getWitnessOwner cls tx i).2.2.1 }

/-- The input loop of `btc.parseWitnessPins`, carrying the input index. -/
def witnessLoop (sha : List Nat → List Nat) (tokenize : List Nat → TokStream)
    (cls : List Nat → ClassInfo) (pid txHash : List Nat) (tx : WMsgTx) :
    Nat → List WTxIn → List Pin
  | _, [] => []
  | i, tIn :: rest =>
    match witnessPinOf sha tokenize cls pid txHash tx i tIn with
    | none => witnessLoop sha tokenize cls pid txHash tx (i + 1) rest
    | some p => p :: witnessLoop sha tokenize cls pid txHash tx (i + 1) rest

/-- `btc.parseWitnessPins`. -/
def btcParseWitnessPins (sha : List Nat → List Nat)
    (tokenize : List Nat → TokStream) (cls : List Nat → ClassInfo)
    (pid txHash : List Nat) (tx : WMsgTx) : List Pin :=
  witnessLoop sha tokenize cls pid txHash tx 0 tx.txIns

/-- `btc.getOpReturnOwner`: the first output whose class is not
`"nonstandard"` and which yields at least one address. -/
def opReturnOwnerLoop (cls : List Nat → ClassInfo) :
    Nat → List WTxOut → List Nat × Nat
  | _, [] => ([], 0)
  | i, out :: rest =>
    if (cls out.pkScript).className ≠ ascii "nonstandard" then
      match (cls out.pkScript).addresses with
      | a0 :: _ => (a0, i)
      | [] => opReturnOwnerLoop cls (i + 1) rest
    else opReturnOwnerLoop cls (i + 1) rest

/-- `btc.getOpReturnOwner`. -/
def getOpReturnOwner (cls : List Nat → ClassInfo) (tx : WMsgTx) :
    List Nat × Nat :=
  opReturnOwnerLoop cls 0 tx.txOuts

/-- The output loop of `btc.parseOpReturnPins` (lines 75-99): only
`"nonstandard"` outputs are candidates, an owner-less envelope is skipped, and
the first produced PIN ends the loop (`break`). -/
def opReturnPinLoop (sha : List Nat → List Nat)
    (tokenize : List Nat → TokStream) (cls : List Nat → ClassInfo)
    (pid txHash : List Nat) (tx : WMsgTx) : Nat → List WTxOut → List Pin
  | _, [] => []
  | i, out :: rest =>
    if (cls out.pkScript).className = ascii "nonstandard" then
      match btcParseOpReturnScript tokenize pid out.pkScript with
      | none => opReturnPinLoop sha tokenize cls pid txHash tx (i + 1) rest
      | some pin =>
        if (getOpReturnOwner cls tx).1 = [] then
          opReturnPinLoop sha tokenize cls pid txHash tx (i + 1) rest
        else
          [{ pin with
              txID := txHash
              vout := (getOpReturnOwner cls tx).2
              ownerAddress := (getOpReturnOwner cls tx).1
              ownerMetaId := CalculateMetaId sha (getOpReturnOwner cls tx).1
              chainName := ascii "btc"
              inscriptionTxIndex := i }]
    else opReturnPinLoop sha tokenize cls pid txHash tx (i + 1) rest

/-- `btc.parseOpReturnPins`. -/
def btcParseOpReturnPins (sha : List Nat → List Nat)
    (tokenize : List Nat → TokStream) (cls : List Nat → ClassInfo)
    (pid txHash : List Nat) (tx : WMsgTx) : List Pin :=
  opReturnPinLoop sha tokenize cls pid txHash tx 0 tx.txOuts

/-- `btc.ParseTransaction` after deserialization (lines 54-67): the OP_RETURN
scan runs first and, when it yields anything, is returned without running the
witness scan. -/
def btcParsePins (sha : List Nat → List Nat) (tokenize : List Nat → TokStream)
    (cls : List Nat → ClassInfo) (pid txHash : List Nat) (tx : WMsgTx) :
    List Pin :=
  let opReturnPins := btcParseOpReturnPins sha tokenize cls pid txHash tx
  if opReturnPins ≠ [] then opReturnPins
  else btcParseWitnessPins sha tokenize cls pid txHash tx

/-!
## Second-variant MVC field decoder and DOGE inline decoder
-/

/-- Index of the first occurrence of `":/"` in a byte string
(`strings.Index(s, ":/")`), `none` when absent. -/
def indexOfColonSlash : List Nat → Option Nat
  | 58 :: 47 :: _ => some 0
  | _ :: rest => (indexOfColonSlash rest).map (· + 1)
  | [] => none

/-- The second `mvc.parseOnePin` (mvc/parser.go lines 599-665): same arity
guards, then the original path is split at the first `":/"` into host and
path, and the parent path is assigned the path itself.  Field entries come
from `extractDataPushes` and are never Go-nil, so the nil checks reduce to
length checks. -/
def mvc2PinFromFields (infoList : List (List Nat)) : Option Pin :=
  if infoList.length < 1 then none
  else if lowerBytes (infoList.getD 0 []) = ascii "revoke" ∧
      infoList.length < 5 then none
  else if infoList.length < 6 ∧
      lowerBytes (infoList.getD 0 []) ≠ ascii "revoke" then none
  else
    some
      { operation := lowerBytes (infoList.getD 0 [])
        originalPath := infoList.getD 1 []
        host :=
          match indexOfColonSlash (infoList.getD 1 []) with
          | some n => if 0 < n then (infoList.getD 1 []).take n else []
          | none => []
        path :=
          match indexOfColonSlash (infoList.getD 1 []) with
          | some n =>
            if 0 < n then NormalizePath ((infoList.getD 1 []).drop (n + 1))
            else NormalizePath (infoList.getD 1 [])
          | none => NormalizePath (infoList.getD 1 [])
        parentPath :=
          match indexOfColonSlash (infoList.getD 1 []) with
          | some n =>
            if 0 < n then NormalizePath ((infoList.getD 1 []).drop (n + 1))
            else NormalizePath (infoList.getD 1 [])
          | none => NormalizePath (infoList.getD 1 [])
        encryption := if 2 < infoList.length then infoList.getD 2 [] else ascii "0"
        version := if 3 < infoList.length then infoList.getD 3 [] else ascii "0"
        contentType :=
          if 4 < infoList.length then NormalizeContentType (infoList.getD 4 [])
          else ascii "application/json"
        contentBody := (infoList.drop 5).foldl (fun acc d => acc ++ d) []
        contentLength := ((infoList.drop 5).foldl (fun acc d => acc ++ d) []).length }

/-- A field that "looks like a signature" in the DOGE inline format:
70-73 bytes starting with the DER tag 0x30. -/
def looksLikeSig (d : List Nat) : Bool :=
  70 ≤ d.length && d.length ≤ 73 && d.headD 0 = 0x30

/-- A field that "looks like a public key": 33 or 65 bytes starting with
0x02, 0x03 or 0x04. -/
def looksLikePubkey (d : List Nat) : Bool :=
  (d.length = 33 || d.length = 65) &&
    (d.headD 0 = 2 || d.headD 0 = 3 || d.headD 0 = 4)

/-- The content loop of `doge.parsePinFromDirectScriptSig` (part_001 lines
296-307): concatenate fields, stopping at the first signature- or
public-key-shaped field. -/
def dogeBody : List (List Nat) → List Nat
  | [] => []
  | d :: rest =>
    if looksLikeSig d then []
    else if looksLikePubkey d then []
    else d ++ dogeBody rest

/-- `strings.SplitN(s, ":", 2)`: split at the first colon, when present. -/
def splitFirstColon : List Nat → Option (List Nat × List Nat)
  | [] => none
  | 58 :: rest => some ([], rest)
  | c :: rest => (splitFirstColon rest).map (fun p => (c :: p.1, p.2))

/-- `doge.parsePinFromDirectScriptSig` after push collection (part_001 lines
215-312): marker check (literal `"metaid"` or configured hex id), operation
validation, inline arity guards, positional normalization with the
`address:path` composite in field 5, and the truncating content loop over
fields 6 onward.  The collected fields are the non-empty pushes, so the
zero-length checks on fields 2-5 test emptiness. -/
def dogeDirectPinFromFields (pid : List Nat) (infoList : List (List Nat)) :
    Option Pin :=
  if infoList.length < 6 then none
  else if infoList.getD 0 [] ≠ ascii "metaid" ∧
      hexEncode (infoList.getD 0 []) ≠ pid then none
  else if lowerBytes (infoList.getD 1 []) ≠ ascii "create" ∧
      lowerBytes (infoList.getD 1 []) ≠ ascii "modify" ∧
      lowerBytes (infoList.getD 1 []) ≠ ascii "revoke" then none
  else if lowerBytes (infoList.getD 1 []) = ascii "revoke" ∧
      infoList.length < 6 then none
  else if lowerBytes (infoList.getD 1 []) ≠ ascii "revoke" ∧
      infoList.length < 7 then none
  else
    some
      { operation := lowerBytes (infoList.getD 1 [])
        contentType :=
          if 2 < infoList.length ∧ infoList.getD 2 [] ≠ [] then
            NormalizeContentType (infoList.getD 2 [])
          else ascii "application/json"
        encryption :=
          if 3 < infoList.length ∧ infoList.getD 3 [] ≠ [] then infoList.getD 3 []
          else ascii "0"
        version :=
          if 4 < infoList.length ∧ infoList.getD 4 [] ≠ [] then infoList.getD 4 []
          else ascii "0"
        path :=
          if 5 < infoList.length ∧ infoList.getD 5 [] ≠ [] then
            match splitFirstColon (infoList.getD 5 []) with
            | some p => NormalizePath p.2
            | none => NormalizePath (infoList.getD 5 [])
          else ascii "/info"
        parentPath :=
          GetParentPath
            (if 5 < infoList.length ∧ infoList.getD 5 [] ≠ [] then
              match splitFirstColon (infoList.getD 5 []) with
              | some p => NormalizePath p.2
              | none => NormalizePath (infoList.getD 5 [])
            else ascii "/info")
        contentBody := dogeBody (infoList.drop 6)
        contentLength := (dogeBody (infoList.drop 6)).length }

-- development sanity checks
example :
    (mvc2PinFromFields
      [ascii "create", ascii "/protocols/simplebuzz", ascii "0", ascii "1",
        ascii "text/plain", ascii "hi"]).map (fun p => (p.path, p.parentPath)) =
    some (ascii "/protocols/simplebuzz", ascii "/protocols/simplebuzz") := by decide
example :
    (dogeDirectPinFromFields (ascii "6d6574616964")
      [ascii "metaid", ascii "create", ascii "text/plain", ascii "0", ascii "1",
        ascii "addr:/protocols/x", ascii "hello"]).map
      (fun p => (p.path, p.contentBody)) =
    some (ascii "/protocols/x", ascii "hello") := by decide

/-!
## Helper lemmas
-/

theorem except_bind_ok {ε α β : Type} {x : Except ε α} {f : α → Except ε β}
    {b : β} (h : x >>= f = .ok b) : ∃ a, x = .ok a ∧ f a = .ok b := by
  cases x with
  | ok a => exact ⟨a, rfl, h⟩
  | error e => exact absurd h (by simp [Bind.bind, Except.bind])

theorem except_map_ok {ε α β : Type} {x : Except ε α} {f : α → β} {b : β}
    (h : x.map f = .ok b) : ∃ a, x = .ok a ∧ f a = b := by
  cases x with
  | ok a => exact ⟨a, rfl, by simpa [Except.map] using h⟩
  | error e => exact absurd h (by simp [Except.map])

theorem hexCharVal_hexDigitChar {n : Nat} (h : n < 16) :
    hexCharVal (hexDigitChar n) = n := by
  unfold hexCharVal hexDigitChar
  split_ifs <;> omega

theorem hexDecode_hexEncode {bs : List Nat} (h : ValidBytes bs) :
    hexDecode (hexEncode bs) = bs := by
  induction bs with
  | nil => rfl
  | cons b rest ih =>
    have hb : b < 256 := h b (List.mem_cons_self b rest)
    have hrest : ValidBytes rest := fun x hx => h x (List.mem_cons_of_mem b hx)
    have h1 : b / 16 < 16 := by omega
    have h2 : b % 16 < 16 := by omega
    calc hexDecode (hexEncode (b :: rest))
        = (hexCharVal (hexDigitChar (b / 16)) * 16 + hexCharVal (hexDigitChar (b % 16))) ::
            hexDecode (hexEncode rest) := rfl
      _ = b :: rest := by
          rw [hexCharVal_hexDigitChar h1, hexCharVal_hexDigitChar h2, ih hrest]
          congr 1
          omega

theorem foldl_append_eq_join {α β : Type} (f : α → List β) :
    ∀ (l : List α) (acc : List β),
      l.foldl (fun a x => a ++ f x) acc = acc ++ (l.map f).flatten
  | [], acc => by simp
  | x :: rest, acc => by
    simp [List.foldl_cons, foldl_append_eq_join f rest (acc ++ f x)]

theorem hexEncode_ne_nil {bs : List Nat} (h : bs ≠ []) : hexEncode bs ≠ [] := by
  cases bs with
  | nil => exact absurd rfl h
  | cons b rest => simp [hexEncode]

theorem ValidBytes_sublist {bs : List Nat} (h : ValidBytes bs) (lo hi : Nat) :
    ValidBytes ((bs.drop lo).take hi) := fun b hb =>
  h b (List.mem_of_mem_drop (List.mem_of_mem_take hb))

theorem toInt64_of_lt {v : Nat} (h : v < 2 ^ 63) : toInt64 (v : Nat) = (v : Nat) := by
  unfold toInt64
  omega

theorem decodeVarInt_fst_range {buf : List Nat} (h : ValidBytes buf) :
    -(2 ^ 63) ≤ (decodeVarInt buf).1 ∧ (decodeVarInt buf).1 < 2 ^ 63 := by
  unfold decodeVarInt
  cases buf with
  | nil => constructor <;> norm_num
  | cons b0 rest =>
    by_cases h0 : b0 ≤ 0xfc
    · simp only [if_pos h0]
      omega
    · by_cases h1 : b0 = 0xfd
      · simp only [if_neg h0, if_pos h1]
        match rest with
        | [] => constructor <;> norm_num
        | [b1] => constructor <;> norm_num
        | b1 :: b2 :: r2 =>
          have hb1 : b1 < 256 := h b1 (by simp)
          have hb2 : b2 < 256 := h b2 (by simp)
          dsimp only
          omega
      · by_cases h2 : b0 = 0xfe
        · simp only [if_neg h0, if_neg h1, if_pos h2]
          match rest with
          | [] => constructor <;> norm_num
          | [b1] => constructor <;> norm_num
          | [b1, b2] => constructor <;> norm_num
          | [b1, b2, b3] => constructor <;> norm_num
          | b1 :: b2 :: b3 :: b4 :: r4 =>
            have hb1 : b1 < 256 := h b1 (by simp)
            have hb2 : b2 < 256 := h b2 (by simp)
            have hb3 : b3 < 256 := h b3 (by simp)
            have hb4 : b4 < 256 := h b4 (by simp)
            dsimp only
            omega
        · simp only [if_neg h0, if_neg h1, if_neg h2]
          match rest with
          | [] => constructor <;> norm_num
          | [b1] => constructor <;> norm_num
          | [b1, b2] => constructor <;> norm_num
          | [b1, b2, b3] => constructor <;> norm_num
          | [b1, b2, b3, b4] => constructor <;> norm_num
          | [b1, b2, b3, b4, b5] => constructor <;> norm_num
          | [b1, b2, b3, b4, b5, b6] => constructor <;> norm_num
          | [b1, b2, b3, b4, b5, b6, b7] => constructor <;> norm_num
          | b1 :: b2 :: b3 :: b4 :: b5 :: b6 :: b7 :: b8 :: r8 =>
            dsimp only
            unfold toInt64
            omega

/-!
## Claim C8: compact-size round-trip
-/

/-- C8 (counterexample): the round-trip fails at `2^63` — the 8-byte branch of
`decodeVarInt` assembles the value in Go 64-bit signed arithmetic, so decoding
the encoding of `2^63` yields the wrapped value `-2^63`, not `2^63`. -/
theorem c8_varint_roundtrip_counterexample :
    decodeVarInt (encodeVarInt (2 ^ 63)) = (-(2 ^ 63 : Int), 9) ∧
    decodeVarInt (encodeVarInt (2 ^ 63)) ≠ (((2 ^ 63 : Nat) : Int), 9) := by
  constructor
  · decide
  · decide

/-- C8 (amended): for every value below `2^63`, decoding the appropriate
prefix-form encoding reproduces the value and the expected consumed-byte count
(1, 3, 5 or 9 according to the range); at `2^63` and above the decoded Go
`int` wraps into the negative range (see the counterexample). -/
theorem c8_varint_roundtrip (v : Nat) (h : v < 2 ^ 63) :
    decodeVarInt (encodeVarInt v) =
      ((v : Int),
        if v ≤ 0xfc then 1
        else if v ≤ 0xffff then 3
        else if v ≤ 0xffffffff then 5
        else 9) := by
  by_cases h1 : v ≤ 0xfc
  · simp only [encodeVarInt, if_pos h1, decodeVarInt]
  · by_cases h2 : v ≤ 0xffff
    · have hfd : ¬ (0xfd : Nat) ≤ 0xfc := by decide
      simp only [encodeVarInt, if_neg h1, if_pos h2, decodeVarInt, if_neg hfd,
        if_pos rfl]
      refine Prod.ext ?_ rfl
      push_cast
      omega
    · by_cases h3 : v ≤ 0xffffffff
      · have hfe : ¬ (0xfe : Nat) ≤ 0xfc := by decide
        have hfe2 : (0xfe : Nat) ≠ 0xfd := by decide
        simp only [encodeVarInt, if_neg h1, if_neg h2, if_pos h3, decodeVarInt,
          if_neg hfe, if_neg hfe2, if_pos rfl]
        refine Prod.ext ?_ rfl
        push_cast
        omega
      · have hff : ¬ (0xff : Nat) ≤ 0xfc := by decide
        have hff2 : (0xff : Nat) ≠ 0xfd := by decide
        have hff3 : (0xff : Nat) ≠ 0xfe := by decide
        simp only [encodeVarInt, if_neg h1, if_neg h2, if_neg h3, decodeVarInt,
          if_neg hff, if_neg hff2, if_neg hff3]
        refine Prod.ext ?_ rfl
        show toInt64 _ = _
        unfold toInt64
        have hsum : v / 256 ^ 7 % 256 * 256 ^ 7 + v / 256 ^ 6 % 256 * 256 ^ 6 +
            v / 256 ^ 5 % 256 * 256 ^ 5 + v / 256 ^ 4 % 256 * 256 ^ 4 +
            v / 256 ^ 3 % 256 * 256 ^ 3 + v / 256 ^ 2 % 256 * 256 ^ 2 +
            v / 256 % 256 * 256 + v % 256 = v := by
          omega
        rw [hsum]
        omega

/-- C8 (witness): the amended round-trip applied at the boundary value
`0xffffffff`. -/
theorem c8_varint_roundtrip_witness :
    decodeVarInt (encodeVarInt 0xffffffff) =
      ((0xffffffff : Int),
        if (0xffffffff : Nat) ≤ 0xfc then 1
        else if (0xffffffff : Nat) ≤ 0xffff then 3
        else if (0xffffffff : Nat) ≤ 0xffffffff then 5
        else 9) :=
  c8_varint_roundtrip 0xffffffff (by decide)

/-!
## Claim C2: raw-transaction decoder error handling
-/

/-- C2 (failing input): on the 43-byte buffer consisting of a 4-byte version,
input count 1, a full 32-byte previous txid and 4-byte index, and then the
truncated compact-size prefix `fd 00` for the signature-script length, the
compact-size decoder returns its `(0, 0)` sentinel, `decodeRawTransaction`
silently treats it as the value zero, and the following unchecked 4-byte
sequence read runs past the end of the buffer — an out-of-bounds access
instead of the explicit error the claim requires. -/
theorem c2_decodeRawTransaction_oob :
    decodeRawTransaction (fun _ => [])
      ([1, 0, 0, 0] ++ [1] ++ List.replicate 32 0 ++ [0, 0, 0, 0] ++ [0xfd, 0]) =
    .error .oob := by decide

theorem decodeIns_length (buf : List Nat) :
    ∀ (n : Nat) (idx : Int) (res : List RTxIn × Int),
      decodeIns buf n idx = .ok res → res.1.length = n := by
  intro n
  induction n with
  | zero =>
    intro idx res h
    unfold decodeIns at h
    cases h
    rfl
  | succ m ih =>
    intro idx res h
    unfold decodeIns at h
    split at h
    · exact absurd h (by simp)
    split at h
    · exact absurd h (by simp)
    split at h
    · exact absurd h (by simp)
    split at h
    · exact absurd h (by simp)
    split at h
    · exact absurd h (by simp)
    split at h
    · exact absurd h (by simp)
    split at h
    · exact absurd h (by simp)
    split at h
    · exact absurd h (by simp)
    next rest hrest =>
      cases h
      simp [ih _ _ hrest]

theorem decodeOuts_length (buf : List Nat) :
    ∀ (n : Nat) (idx : Int) (res : List RTxOut × Int),
      decodeOuts buf n idx = .ok res → res.1.length = n := by
  intro n
  induction n with
  | zero =>
    intro idx res h
    unfold decodeOuts at h
    cases h
    rfl
  | succ m ih =>
    intro idx res h
    unfold decodeOuts at h
    split at h
    · exact absurd h (by simp)
    split at h
    · exact absurd h (by simp)
    split at h
    · exact absurd h (by simp)
    split at h
    · exact absurd h (by simp)
    split at h
    · exact absurd h (by simp)
    split at h
    · exact absurd h (by simp)
    split at h
    · exact absurd h (by simp)
    next rest hrest =>
      cases h
      simp [ih _ _ hrest]

theorem sliceI_ok_valid {buf s : List Nat} {lo hi : Int}
    (hv : ValidBytes buf) (h : sliceI buf lo hi = .ok s) : ValidBytes s := by
  unfold sliceI at h
  split at h
  · cases h
    exact ValidBytes_sublist hv _ _
  · exact absurd h (by simp)

theorem decodeRawTxCore_ok_facts {txBytes : List Nat} {t : RawTransaction}
    (hv : ValidBytes txBytes) (h : decodeRawTxCore txBytes = .ok t) :
    ValidBytes t.version ∧ ValidBytes t.lockTime ∧
    (t.inSize < 2 ^ 63 → t.vins.length = t.inSize) ∧
    (t.outSize < 2 ^ 63 → t.vouts.length = t.outSize) := by
  unfold decodeRawTxCore at h
  split at h
  · exact absurd h (by simp)
  split at h
  · exact absurd h (by simp)
  split at h
  · exact absurd h (by simp)
  rename_i version hver
  split at h
  · exact absurd h (by simp)
  rename_i tail htail
  split at h
  · exact absurd h (by simp)
  split at h
  · exact absurd h (by simp)
  rename_i ins hins
  split at h
  · exact absurd h (by simp)
  rename_i tail2 htail2
  split at h
  · exact absurd h (by simp)
  split at h
  · exact absurd h (by simp)
  rename_i outs houts
  split at h
  · exact absurd h (by simp)
  split at h
  · exact absurd h (by simp)
  rename_i lockTime hlock
  split at h
  · exact absurd h (by simp)
  cases h
  have hVtail : ValidBytes tail := sliceI_ok_valid hv htail
  have hVtail2 : ValidBytes tail2 := sliceI_ok_valid hv htail2
  have hr1 := decodeVarInt_fst_range hVtail
  have hr2 := decodeVarInt_fst_range hVtail2
  have hl1 := decodeIns_length txBytes _ _ _ hins
  have hl2 := decodeOuts_length txBytes _ _ _ houts
  refine ⟨sliceI_ok_valid hv hver, sliceI_ok_valid hv hlock, ?_, ?_⟩
  · intro hsz
    dsimp only at hsz ⊢
    omega
  · intro hsz
    dsimp only at hsz ⊢
    omega

theorem ValidBytes_append {a b : List Nat} (ha : ValidBytes a) (hb : ValidBytes b) :
    ValidBytes (a ++ b) := fun x hx => by
  rcases List.mem_append.mp hx with h | h
  · exact ha x h
  · exact hb x h

theorem ValidBytes_uint32ToLE (n : Nat) : ValidBytes (uint32ToLE n) := by
  intro b hb
  simp only [uint32ToLE, List.mem_cons, List.not_mem_nil, or_false] at hb
  rcases hb with h | h | h | h <;> omega

theorem getTxNewRawByte_eq (sha : List Nat → List Nat) (t : RawTransaction) :
    getTxNewRawByte sha t =
      t.version ++ t.lockTime ++ uint32ToLE t.inSize ++ uint32ToLE t.outSize ++
        sha ((t.vins.map (fun i => i.txid ++ i.vout ++ i.sequence)).flatten) ++
        sha ((t.vins.map (fun i => sha i.scriptSig)).flatten) ++
        sha ((t.vouts.map (fun o => o.amount ++ sha o.lockScript)).flatten) := by
  have h1 : ∀ (l : List RTxIn) (acc : List Nat),
      l.foldl (fun a i => a ++ i.txid ++ i.vout ++ i.sequence) acc =
        acc ++ (l.map (fun i => i.txid ++ i.vout ++ i.sequence)).flatten := by
    intro l
    induction l with
    | nil => simp
    | cons x xs ih =>
      intro acc
      rw [List.foldl_cons, ih]
      simp [List.append_assoc]
  have h2 : ∀ (l : List RTxOut) (acc : List Nat),
      l.foldl (fun a o => a ++ o.amount ++ sha o.lockScript) acc =
        acc ++ (l.map (fun o => o.amount ++ sha o.lockScript)).flatten := by
    intro l
    induction l with
    | nil => simp
    | cons x xs ih =>
      intro acc
      rw [List.foldl_cons, ih]
      simp [List.append_assoc]
  unfold getTxNewRawByte
  rw [h1, h2, foldl_append_eq_join (fun i : RTxIn => sha i.scriptSig)]
  simp

/-!
## Claim C1: versioned transaction-identifier algorithm
-/

/-- C1: for a raw transaction accepted by the layout decoder (with sane
declared counts), the computed identifier is, for version < 10, the
reverse-byte-order hex of double-SHA256 over the full serialized bytes and,
for version ≥ 10, the reverse-byte-order hex of double-SHA256 over
version ∥ lock-time ∥ LE-uint32(input count) ∥ LE-uint32(output count) ∥
SHA-256(inputs' txid ∥ index ∥ sequence) ∥ SHA-256(inputs' SHA-256(sigScript))
∥ SHA-256(outputs' amount ∥ SHA-256(lockScript)).  `sha` ranges over every
byte-valued hash function, `crypto/sha256` included. -/
theorem c1_versioned_txid (sha : List Nat → List Nat) (txBytes : List Nat)
    (rawTx : RawTransaction)
    (hdec : decodeRawTransaction sha txBytes = .ok rawTx)
    (hv : ValidBytes txBytes)
    (hsha : ∀ x, ValidBytes (sha x))
    (hin : rawTx.inSize < 2 ^ 63) (hout : rawTx.outSize < 2 ^ 63) :
    (leUint32 rawTx.version < 10 →
      calculateTxHash sha txBytes =
        .ok (hexEncode (reverseBytes (doubleHashB sha txBytes)))) ∧
    (10 ≤ leUint32 rawTx.version →
      calculateTxHash sha txBytes =
        .ok (hexEncode (reverseBytes (doubleHashB sha
          (rawTx.version ++ rawTx.lockTime ++
            uint32ToLE rawTx.vins.length ++ uint32ToLE rawTx.vouts.length ++
            sha ((rawTx.vins.map (fun i => i.txid ++ i.vout ++ i.sequence)).flatten) ++
            sha ((rawTx.vins.map (fun i => sha i.scriptSig)).flatten) ++
            sha ((rawTx.vouts.map (fun o => o.amount ++ sha o.lockScript)).flatten)))))) := by
  obtain ⟨t0, hcore, hraw⟩ := except_map_ok hdec
  have hver : rawTx.version = t0.version := by rw [← hraw]
  have hvins : rawTx.vins = t0.vins := by rw [← hraw]
  have hvouts : rawTx.vouts = t0.vouts := by rw [← hraw]
  have hinSz : rawTx.inSize = t0.inSize := by rw [← hraw]
  have hlock : rawTx.lockTime = t0.lockTime := by rw [← hraw]
  have houtSz : rawTx.outSize = t0.outSize := by rw [← hraw]
  have htxid : rawTx.txID =
      (if leUint32 t0.version < 10 then getTxID sha (hexEncode txBytes)
       else getTxID sha (hexEncode (getTxNewRawByte sha t0))) := by rw [← hraw]
  have hnewEq : getTxNewRawByte sha rawTx = getTxNewRawByte sha t0 := by
    unfold getTxNewRawByte
    rw [hver, hvins, hvouts, hinSz, houtSz, hlock]
  obtain ⟨hVver, hVlock, hlin, hlout⟩ := decodeRawTxCore_ok_facts hv hcore
  have hct : calculateTxHash sha txBytes =
      .ok (if leUint32 rawTx.version < 10 then rawTx.txID
        else getTxID sha (hexEncode (getTxNewRawByte sha rawTx))) := by
    unfold calculateTxHash
    rw [hdec]
    rfl
  constructor
  · intro hlt
    rw [hct, if_pos hlt, htxid, if_pos (hver ▸ hlt)]
    unfold getTxID
    rw [hexDecode_hexEncode hv]
  · intro hge
    have hnlt : ¬ leUint32 rawTx.version < 10 := by omega
    rw [hct, if_neg hnlt]
    have hVnew : ValidBytes (getTxNewRawByte sha rawTx) := by
      unfold getTxNewRawByte
      refine ValidBytes_append (ValidBytes_append (ValidBytes_append
        (ValidBytes_append (ValidBytes_append (ValidBytes_append
          (hver ▸ hVver) ?_) (ValidBytes_uint32ToLE _)) (ValidBytes_uint32ToLE _))
        (hsha _)) (hsha _)) (hsha _)
      rw [hlock]
      exact hVlock
    unfold getTxID
    rw [hexDecode_hexEncode hVnew]
    rw [getTxNewRawByte_eq]
    have hlen1 : rawTx.vins.length = rawTx.inSize := by
      rw [hvins, hinSz]
      exact hlin (hinSz ▸ hin)
    have hlen2 : rawTx.vouts.length = rawTx.outSize := by
      rw [hvouts, houtSz]
      exact hlout (houtSz ▸ hout)
    rw [hlen1, hlen2]

/-- A concrete 61-byte single-input single-output transaction (version 1). -/
def c1TxBytes : List Nat :=
  [1, 0, 0, 0] ++ [1] ++ List.replicate 32 0 ++ [0, 0, 0, 0] ++ [0] ++
    [0, 0, 0, 0] ++ [1] ++ List.replicate 8 0 ++ [1, 81] ++ [0, 0, 0, 0]

/-- The decode of `c1TxBytes` under the trivial hash function. -/
def c1RawTx : RawTransaction :=
  ⟨[], [1, 0, 0, 0], [⟨List.replicate 32 0, [0, 0, 0, 0], [], [0, 0, 0, 0]⟩],
    [⟨List.replicate 8 0, [81]⟩], [0, 0, 0, 0], 1, 1⟩

/-- C1 (witness): the theorem applied to the concrete version-1 transaction
`c1TxBytes`, with each hypothesis discharged by evaluation. -/
theorem c1_versioned_txid_witness :
    calculateTxHash (fun _ => []) c1TxBytes =
      .ok (hexEncode (reverseBytes (doubleHashB (fun _ => []) c1TxBytes))) := by
  have h := c1_versioned_txid (fun _ => []) c1TxBytes c1RawTx (by decide)
    (by decide) (fun x b hb => absurd hb (List.not_mem_nil b)) (by decide)
    (by decide)
  exact h.1 (by decide)

/-!
## Claims C5, C6, C7: field decoding
-/

theorem dogeBody_eq (l : List (List Nat)) :
    dogeBody l =
      (l.takeWhile (fun d => !(looksLikeSig d || looksLikePubkey d))).flatten := by
  induction l with
  | nil => rfl
  | cons d rest ih =>
    by_cases hs : looksLikeSig d
    · simp [dogeBody, List.takeWhile_cons, hs]
    · by_cases hp : looksLikePubkey d
      · simp [dogeBody, List.takeWhile_cons, hs, hp]
      · simp [dogeBody, List.takeWhile_cons, hs, hp, ih]

/-- C5: content reassembly.  In the standard envelope field decoder, a decoded
PIN's content body is the in-order, delimiter-free concatenation of all fields
after the five-field header, with content-length its byte length; in the DOGE
inline signature-script decoder, the concatenation instead stops at the first
field shaped like a DER signature (70-73 bytes starting 0x30) or a public key
(33 or 65 bytes starting 0x02/0x03/0x04), excluding it and everything after. -/
theorem c5_content_reassembly :
    (∀ (l : List (Option (List Nat))) (pin : Pin), stdPinFromFields l = some pin →
      pin.contentBody = ((l.drop 5).map dStr).flatten ∧
        pin.contentLength = pin.contentBody.length) ∧
    (∀ (pid : List Nat) (l : List (List Nat)) (pin : Pin),
      dogeDirectPinFromFields pid l = some pin →
      pin.contentBody =
        ((l.drop 6).takeWhile (fun d => !(looksLikeSig d || looksLikePubkey d))).flatten ∧
        pin.contentLength = pin.contentBody.length) := by
  constructor
  · intro l pin h
    unfold stdPinFromFields at h
    split at h
    · exact absurd h (by simp)
    split at h
    · exact absurd h (by simp)
    split at h
    · exact absurd h (by simp)
    cases h
    constructor
    · simp [foldl_append_eq_join]
    · rfl
  · intro pid l pin h
    unfold dogeDirectPinFromFields at h
    split at h
    · exact absurd h (by simp)
    split at h
    · exact absurd h (by simp)
    split at h
    · exact absurd h (by simp)
    split at h
    · exact absurd h (by simp)
    split at h
    · exact absurd h (by simp)
    cases h
    constructor
    · simp [dogeBody_eq]
    · rfl

/-- C5 (witness): the reassembly facts at a concrete standard field list and a
concrete inline field list whose seventh field is followed by a 33-byte
public-key-shaped field. -/
theorem c5_content_reassembly_witness :
    (∃ pin, stdPinFromFields
        [some (ascii "create"), some (ascii "/a"), some (ascii "0"),
          some (ascii "1"), some (ascii "t"), some (ascii "hi"), some (ascii "!")] =
        some pin ∧ pin.contentBody = ascii "hi!" ∧ pin.contentLength = 3) ∧
    (∃ pin, dogeDirectPinFromFields (ascii "6d6574616964")
        [ascii "metaid", ascii "create", ascii "t", ascii "0", ascii "1",
          ascii "a:/b", ascii "hi", 2 :: List.replicate 32 0, ascii "zz"] =
        some pin ∧ pin.contentBody = ascii "hi" ∧ pin.contentLength = 2) := by
  constructor
  · refine ⟨_, rfl, ?_, ?_⟩
    · have h := c5_content_reassembly.1 _ _ (rfl :
        stdPinFromFields
          [some (ascii "create"), some (ascii "/a"), some (ascii "0"),
            some (ascii "1"), some (ascii "t"), some (ascii "hi"),
            some (ascii "!")] = _)
      rw [h.1]
      decide
    · decide
  · refine ⟨_, rfl, ?_, ?_⟩
    · have h := c5_content_reassembly.2 (ascii "6d6574616964") _ _ (rfl :
        dogeDirectPinFromFields (ascii "6d6574616964")
          [ascii "metaid", ascii "create", ascii "t", ascii "0", ascii "1",
            ascii "a:/b", ascii "hi", 2 :: List.replicate 32 0, ascii "zz"] = _)
      rw [h.1]
      decide
    · decide

/-- C6: operation-arity boundaries of the standard envelope field decoder.  A
field list case-folding to "revoke" with exactly 5 fields yields a PIN and
with 4 fields yields none; a create/modify field list with exactly 6 fields
yields a PIN and with 5 fields yields none. -/
theorem c6_operation_arity (l : List (Option (List Nat))) :
    (l.length = 5 → lowerBytes (dStr (l.getD 0 none)) = ascii "revoke" →
      (stdPinFromFields l).isSome = true) ∧
    (l.length = 4 → lowerBytes (dStr (l.getD 0 none)) = ascii "revoke" →
      stdPinFromFields l = none) ∧
    (l.length = 6 →
      (lowerBytes (dStr (l.getD 0 none)) = ascii "create" ∨
        lowerBytes (dStr (l.getD 0 none)) = ascii "modify") →
      (stdPinFromFields l).isSome = true) ∧
    (l.length = 5 →
      (lowerBytes (dStr (l.getD 0 none)) = ascii "create" ∨
        lowerBytes (dStr (l.getD 0 none)) = ascii "modify") →
      stdPinFromFields l = none) := by
  refine ⟨?_, ?_, ?_, ?_⟩
  · intro hl hop
    unfold stdPinFromFields
    rw [if_neg (by omega),
      if_neg (fun hco => by have := hco.2; omega),
      if_neg (fun hco => hco.2 hop)]
    rfl
  · intro hl hop
    unfold stdPinFromFields
    rw [if_neg (by omega), if_pos ⟨hop, by omega⟩]
  · intro hl hop
    have hne : lowerBytes (dStr (l.getD 0 none)) ≠ ascii "revoke" := by
      rcases hop with h | h <;> rw [h] <;> decide
    unfold stdPinFromFields
    rw [if_neg (by omega),
      if_neg (fun hco => hne hco.1),
      if_neg (fun hco => by have := hco.1; omega)]
    rfl
  · intro hl hop
    have hne : lowerBytes (dStr (l.getD 0 none)) ≠ ascii "revoke" := by
      rcases hop with h | h <;> rw [h] <;> decide
    unfold stdPinFromFields
    rw [if_neg (by omega),
      if_neg (fun hco => hne hco.1),
      if_pos ⟨by omega, hne⟩]

/-- C6 (witness): the arity boundaries at concrete field lists. -/
theorem c6_operation_arity_witness :
    (stdPinFromFields
      [some (ascii "REVOKE"), some (ascii "/a"), some (ascii "0"),
        some (ascii "1"), some (ascii "t")]).isSome = true ∧
    stdPinFromFields
      [some (ascii "REVOKE"), some (ascii "/a"), some (ascii "0"),
        some (ascii "1")] = none ∧
    (stdPinFromFields
      [some (ascii "create"), some (ascii "/a"), some (ascii "0"),
        some (ascii "1"), some (ascii "t"), some (ascii "x")]).isSome = true ∧
    stdPinFromFields
      [some (ascii "create"), some (ascii "/a"), some (ascii "0"),
        some (ascii "1"), some (ascii "t")] = none := by
  refine ⟨?_, ?_, ?_, ?_⟩
  · exact (c6_operation_arity _).1 (by decide) (by decide)
  · exact (c6_operation_arity _).2.1 (by decide) (by decide)
  · exact (c6_operation_arity _).2.2.1 (by decide) (Or.inl (by decide))
  · exact (c6_operation_arity _).2.2.2 (by decide) (Or.inl (by decide))

theorem collectFields_none {toks : List Tok} {err : Bool}
    (h : ∃ t ∈ toks.takeWhile (fun t => t.opcode != OP_ENDIF),
      520 < (dStr t.data).length) :
    collectFields toks err = none := by
  induction toks with
  | nil => simp at h
  | cons t rest ih =>
    by_cases he : t.opcode = OP_ENDIF
    · rw [List.takeWhile_cons] at h
      simp [he] at h
    · rcases h with ⟨x, hx, hbig⟩
      rw [List.takeWhile_cons] at hx
      simp only [he, ne_eq, not_false_iff, bne_iff_ne, if_pos, List.mem_cons] at hx
      unfold collectFields
      rw [if_neg he]
      rcases hx with rfl | hx
      · rw [if_pos hbig]
      · by_cases hbigt : 520 < (dStr t.data).length
        · rw [if_pos hbigt]
        · rw [if_neg hbigt, ih ⟨x, hx, hbig⟩]
          rfl

/-- C7 (amended): in the BTC standard envelope (the `parseOnePin` shared by
the OP_RETURN and witness carriers), any field longer than 520 bytes before
the `OP_ENDIF` terminator invalidates the whole envelope; the MVC OP_RETURN
envelope decoder performs no such check (see the counterexample). -/
theorem c7_field_size_limit (toks : List Tok) (err : Bool)
    (h : ∃ t ∈ toks.takeWhile (fun t => t.opcode != OP_ENDIF),
      520 < (dStr t.data).length) :
    btcParseOnePin toks err = none := by
  unfold btcParseOnePin
  rw [collectFields_none h]
  rfl

set_option maxRecDepth 4000 in
/-- C7 (witness): a single 521-byte field before `OP_ENDIF` makes the BTC
field decoder yield nothing. -/
theorem c7_field_size_limit_witness :
    btcParseOnePin
      [⟨77, some (List.replicate 521 97)⟩, ⟨OP_ENDIF, none⟩] false = none :=
  c7_field_size_limit _ false ⟨⟨77, some (List.replicate 521 97)⟩, by decide⟩

/-- The token stream of a well-formed MVC OP_RETURN envelope whose sixth field
holds 521 bytes. -/
def c7MvcToks : List Tok :=
  [⟨OP_RETURN, none⟩, ⟨6, some (ascii "metaid")⟩, ⟨6, some (ascii "create")⟩,
    ⟨2, some (ascii "/a")⟩, ⟨1, some (ascii "0")⟩, ⟨1, some (ascii "1")⟩,
    ⟨1, some (ascii "t")⟩, ⟨77, some (List.replicate 521 97)⟩]

set_option maxRecDepth 8000 in
/-- C7 (counterexample): the MVC OP_RETURN envelope decoder produces a PIN
from a script containing a 521-byte field — the claim's "every standard
envelope (OP_RETURN or witness carrier)" fails on the MVC carrier, which has
no 520-byte field check. -/
theorem c7_field_size_counterexample :
    (mvc1ParseOpReturnScript (fun _ => ⟨c7MvcToks, false⟩) (ascii "6d6574616964")
      []).isSome = true ∧
    520 < (dStr (c7MvcToks.getD 7 ⟨0, none⟩).data).length := by
  constructor
  · decide
  · decide

/-!
## Claim C4: witness stack filtering and script selection
-/

theorem getD_secondLast : ∀ (w : List (List Nat)), 2 ≤ w.length →
    w.getD (w.length - 2) [] = w.dropLast.getLastD []
  | [], h => by simp at h
  | [a], h => by simp at h
  | [a, b], _ => by simp [List.getD]
  | a :: b :: c :: rest, _ => by
    have hrec := getD_secondLast (b :: c :: rest) (by simp)
    simp only [List.length_cons] at hrec ⊢
    rw [show rest.length + 1 + 1 + 1 - 2 = (rest.length + 1 + 1 - 2) + 1 by omega,
      List.getD_cons_succ, hrec]
    simp [List.getLastD_eq_getLast?, List.dropLast_cons₂, List.getLast?_cons_cons]

/-- C4 (counterexample): on the three-item witness stack
`[[2,2], [3,3], [80,1]]` whose last item starts with the taproot annex tag
0x50, the code selects the **last** item (the annex itself) as the witness
script, not the second-to-last item required by the claim, and the annex is
not skipped. -/
theorem c4_witness_selection_counterexample :
    witnessScriptOf [[2, 2], [3, 3], [80, 1]] = some [80, 1] ∧
    witnessScriptOf [[2, 2], [3, 3], [80, 1]] ≠
      some ([[2, 2], [3, 3], [80, 1]].dropLast.getLastD []) := by
  constructor
  · decide
  · decide

/-- C4 (amended): the trivial-stack rejections hold as claimed (at most one
item, or a last item of at most one byte, yields no PIN), and a **two**-item
stack whose last item starts with the annex tag is skipped; but for larger
stacks the item selected as the witness script is the **last** stack item
when its first byte is the annex tag (the annex is not skipped), and the
second-to-last item only when the last item does not start with the annex
tag (an empty selection yielding nothing). -/
theorem c4_witness_selection (w : List (List Nat)) :
    (w.length ≤ 1 → witnessScriptOf w = none) ∧
    ((w.getLastD []).length ≤ 1 → witnessScriptOf w = none) ∧
    (w.length = 2 → (w.getLastD []).headD 0 = TaprootAnnexTag →
      witnessScriptOf w = none) ∧
    (2 ≤ w.length → 2 ≤ (w.getLastD []).length →
      (w.getLastD []).headD 0 = TaprootAnnexTag → w.length ≠ 2 →
      witnessScriptOf w = some (w.getLastD [])) ∧
    (2 ≤ w.length → 2 ≤ (w.getLastD []).length →
      (w.getLastD []).headD 0 ≠ TaprootAnnexTag →
      witnessScriptOf w =
        if w.dropLast.getLastD [] = [] then none
        else some (w.dropLast.getLastD [])) := by
  refine ⟨?_, ?_, ?_, ?_, ?_⟩
  · intro h
    unfold witnessScriptOf
    rw [if_pos h]
  · intro h
    unfold witnessScriptOf
    by_cases h1 : w.length ≤ 1
    · rw [if_pos h1]
    · rw [if_neg h1, if_pos h]
  · intro h2 ha
    unfold witnessScriptOf
    by_cases hl : (w.getLastD []).length ≤ 1
    · rw [if_neg (by omega), if_pos hl]
    · rw [if_neg (by omega), if_neg hl, if_pos ⟨h2, ha⟩]
  · intro hw hl ha hne
    unfold witnessScriptOf
    rw [if_neg (by omega), if_neg (by omega), if_neg (fun hco => hne hco.1),
      if_pos ha, if_neg (by omega)]
  · intro hw hl ha
    unfold witnessScriptOf
    rw [if_neg (by omega), if_neg (by omega), if_neg (fun hco => ha hco.2),
      if_neg ha, if_pos hw, getD_secondLast w hw]
    by_cases hz : w.dropLast.getLastD [] = []
    · rw [if_pos (by rw [List.length_eq_zero]; exact hz), if_pos hz]
    · rw [if_neg (fun hlen => hz (List.length_eq_zero.mp hlen)), if_neg hz]

/-- C4 (witness): for the no-annex stack `[[5], [6,6], [7,7]]` the selection
is the second-to-last item. -/
theorem c4_witness_selection_witness :
    witnessScriptOf [[5], [6, 6], [7, 7]] =
      (if [[5], [6, 6], [7, 7]].dropLast.getLastD [] = [] then none
       else some ([[5], [6, 6], [7, 7]].dropLast.getLastD [])) :=
  (c4_witness_selection _).2.2.2.2 (by decide) (by decide) (by decide)

/-!
## Claim C9: parent-path derivation
-/

/-- The claim's parent path: the path split into `/`-separated pieces, the
final one removed, empty when there are fewer than two pieces.  Stated from
the spec's words for comparison with `GetParentPath`. -/
def parentPathSpec (p : List Nat) : List Nat :=
  if (splitSlash p).length < 2 then [] else joinSlash (splitSlash p).dropLast

theorem splitSlash_ne_nil (p : List Nat) : splitSlash p ≠ [] := by
  cases p with
  | nil => simp [splitSlash]
  | cons c q =>
    unfold splitSlash
    by_cases hc : c = 47
    · simp [hc]
    · rw [if_neg hc]
      rcases h : splitSlash q with _ | ⟨x, xs⟩ <;> simp

theorem getParentPath_eq_spec {p : List Nat} (h : p.headD 0 = 47) :
    GetParentPath p = parentPathSpec p := by
  cases p with
  | nil => simp at h
  | cons c q =>
    have hc : c = 47 := by simpa using h
    subst hc
    unfold GetParentPath parentPathSpec
    rw [show splitSlash (47 :: q) = [] :: splitSlash q from by simp [splitSlash]]
    rcases hsq : splitSlash q with _ | ⟨x, xs⟩
    · exact absurd hsq (splitSlash_ne_nil q)
    · cases xs with
      | nil =>
        rw [if_pos (by simp), if_neg (by simp)]
        simp [joinSlash]
      | cons y ys =>
        rw [if_neg (by simp only [List.length_cons]; omega),
          if_neg (by simp only [List.length_cons]; omega)]

/-- C9 (counterexample): a PIN decoded by the second MVC OP_RETURN field
decoder has its parent-path field set to the path itself, not to the path with
its final segment removed. -/
theorem c9_parent_path_counterexample :
    (mvc2PinFromFields
      [ascii "create", ascii "/protocols/simplebuzz", ascii "0", ascii "1",
        ascii "t", ascii "x"]).map (fun p => (p.path, p.parentPath)) =
      some (ascii "/protocols/simplebuzz", ascii "/protocols/simplebuzz") ∧
    parentPathSpec (ascii "/protocols/simplebuzz") = ascii "/protocols" ∧
    ascii "/protocols/simplebuzz" ≠ ascii "/protocols" := by
  refine ⟨?_, ?_, ?_⟩
  · decide
  · decide
  · decide

/-- C9 (amended): for BTC standard-envelope PINs the parent path is
`GetParentPath` of the (case-folded, trimmed) path, which for every path
beginning with the separator equals the path with its final segment removed
(empty when fewer than two segments); the second MVC field decoder instead
sets the parent path equal to the path itself. -/
theorem c9_parent_path :
    (∀ (l : List (Option (List Nat))) (pin : Pin), stdPinFromFields l = some pin →
      pin.parentPath = GetParentPath pin.path ∧
        (pin.path.headD 0 = 47 → pin.parentPath = parentPathSpec pin.path)) ∧
    (∀ (l : List (List Nat)) (pin : Pin), mvc2PinFromFields l = some pin →
      pin.parentPath = pin.path) := by
  constructor
  · intro l pin h
    unfold stdPinFromFields at h
    split at h
    · exact absurd h (by simp)
    split at h
    · exact absurd h (by simp)
    split at h
    · exact absurd h (by simp)
    cases h
    exact ⟨rfl, fun hh => getParentPath_eq_spec hh⟩
  · intro l pin h
    unfold mvc2PinFromFields at h
    split at h
    · exact absurd h (by simp)
    split at h
    · exact absurd h (by simp)
    split at h
    · exact absurd h (by simp)
    cases h
    rfl

/-- C9 (witness): the amended facts at a concrete decoded BTC PIN with a
two-segment path. -/
theorem c9_parent_path_witness :
    ∃ pin, stdPinFromFields
        [some (ascii "create"), some (ascii "/a/b"), some (ascii "0"),
          some (ascii "1"), some (ascii "t"), some (ascii "x")] = some pin ∧
      pin.parentPath = GetParentPath pin.path ∧
      pin.parentPath = parentPathSpec pin.path := by
  refine ⟨_, rfl, ?_⟩
  have h := c9_parent_path.1 _ _ (rfl :
    stdPinFromFields
      [some (ascii "create"), some (ascii "/a/b"), some (ascii "0"),
        some (ascii "1"), some (ascii "t"), some (ascii "x")] = _)
  exact ⟨h.1, h.2 (by decide)⟩

/-!
## Claim C10: witness-path placeholder owner
-/

theorem witnessLoop_mem (sha : List Nat → List Nat)
    (tokenize : List Nat → TokStream) (cls : List Nat → ClassInfo)
    (pid txHash : List Nat) (tx : WMsgTx) :
    ∀ (l : List WTxIn) (i0 k : Nat) (p : Pin), k < l.length →
      witnessPinOf sha tokenize cls pid txHash tx (i0 + k) (l.getD k ⟨[]⟩) = some p →
      p ∈ witnessLoop sha tokenize cls pid txHash tx i0 l := by
  intro l
  induction l with
  | nil =>
    intro i0 k p hk
    simp at hk
  | cons t rest ih =>
    intro i0 k p hk hp
    cases k with
    | zero =>
      unfold witnessLoop
      rw [Nat.add_zero] at hp
      rw [List.getD_cons_zero] at hp
      rw [hp]
      exact List.mem_cons_self _ _
    | succ k' =>
      rw [List.getD_cons_succ] at hp
      rw [show i0 + (k' + 1) = (i0 + 1) + k' by omega] at hp
      have hmem := ih (i0 + 1) k' p (by simpa using Nat.lt_of_succ_lt_succ hk) hp
      unfold witnessLoop
      cases hw : witnessPinOf sha tokenize cls pid txHash tx i0 t with
      | none => exact hmem
      | some q => exact List.mem_cons_of_mem _ hmem

/-- C10: on the BTC witness path, when the owner resolver yields no address
for the anchoring output, the PIN is still emitted: owner address is the
literal "unknown", the output index is 0, and the owner MetaID is the
hex-encoded SHA-256 of the string "unknown" — a non-empty identifier whenever
SHA-256 produces output bytes. -/
theorem c10_unknown_owner (sha : List Nat → List Nat)
    (tokenize : List Nat → TokStream) (cls : List Nat → ClassInfo)
    (pid txHash : List Nat) (tx : WMsgTx) (i : Nat) (txIn : WTxIn)
    (ws : List Nat) (pin0 : Pin)
    (hws : witnessScriptOf txIn.witness = some ws)
    (hparse : btcParseWitnessScript tokenize pid ws = some pin0)
    (hown : (getWitnessOwner cls tx i).1 = []) :
    ∃ p, witnessPinOf sha tokenize cls pid txHash tx i txIn = some p ∧
      p.ownerAddress = ascii "unknown" ∧ p.vout = 0 ∧
      p.ownerMetaId = hexEncode (sha (ascii "unknown")) ∧
      (sha (ascii "unknown") ≠ [] → p.ownerMetaId ≠ []) ∧
      p.inscriptionTxIndex = i ∧
      (i < tx.txIns.length → txIn = tx.txIns.getD i ⟨[]⟩ →
        p ∈ btcParseWitnessPins sha tokenize cls pid txHash tx) := by
  have hmeta : CalculateMetaId sha (ascii "unknown") =
      hexEncode (sha (ascii "unknown")) := by
    unfold CalculateMetaId
    rw [if_neg (by decide)]
  have heq : witnessPinOf sha tokenize cls pid txHash tx i txIn =
      some { pin0 with
        id := txHash ++ [105] ++ natToDec 0
        txID := txHash
        vout := 0
        ownerAddress := ascii "unknown"
        ownerMetaId := CalculateMetaId sha (ascii "unknown")
        chainName := ascii "btc"
        inscriptionTxIndex := i
        location := txHash ++ [58] ++ natToDec 0 ++ [58] ++
          intToDec (getWitnessOwner cls tx i).2.2.2
        offset := 0
        output := txHash ++ [58] ++ natToDec 0
        outputValue := (getWitnessOwner cls tx i).2.2.1 } := by
    unfold witnessPinOf
    rw [hws]
    dsimp only
    rw [hparse]
    simp [hown]
  refine ⟨_, heq, rfl, rfl, hmeta, ?_, rfl, ?_⟩
  · intro hne
    show CalculateMetaId sha (ascii "unknown") ≠ []
    rw [hmeta]
    exact hexEncode_ne_nil hne
  · intro hi htxIn
    refine witnessLoop_mem sha tokenize cls pid txHash tx tx.txIns 0 i _ hi ?_
    rw [Nat.zero_add, ← htxIn]
    exact heq

/-- A concrete two-item annex-free witness stack. -/
def c10TxIn : WTxIn := ⟨[[2, 2], [3, 3]]⟩

/-- A single-input, zero-output transaction (no owner address resolvable). -/
def c10Tx : WMsgTx := ⟨[c10TxIn], []⟩

/-- Tokenizer run of a revoke envelope for the concrete witness script. -/
def c10Toks : List Tok :=
  [⟨0, none⟩, ⟨99, none⟩, ⟨6, some (ascii "metaid")⟩, ⟨6, some (ascii "revoke")⟩,
    ⟨2, some (ascii "/a")⟩, ⟨1, some (ascii "0")⟩, ⟨1, some (ascii "1")⟩,
    ⟨1, some (ascii "t")⟩, ⟨104, none⟩]

/-- Concrete external tokenizer for the C10 witness. -/
def c10Tokenize : List Nat → TokStream := fun _ => ⟨c10Toks, false⟩

/-- Concrete external classifier yielding no addresses. -/
def c10Cls : List Nat → ClassInfo := fun _ => ⟨ascii "nonstandard", []⟩

/-- The PIN the envelope parse yields before ownership assignment. -/
def c10Pin0 : Pin :=
  { operation := ascii "revoke", path := ascii "/a", encryption := ascii "0",
    version := ascii "1", contentType := ascii "t" }

/-- C10 (witness): the theorem applied to the concrete transaction whose only
input carries a revoke envelope and whose output list is empty. -/
theorem c10_unknown_owner_witness :
    ∃ p, witnessPinOf (fun _ => [1]) c10Tokenize c10Cls (ascii "6d6574616964")
        (ascii "h") c10Tx 0 c10TxIn = some p ∧
      p.ownerAddress = ascii "unknown" ∧ p.vout = 0 ∧
      p.ownerMetaId = hexEncode ((fun _ => [1]) (ascii "unknown")) := by
  obtain ⟨p, h1, h2, h3, h4, h5⟩ :=
    c10_unknown_owner (fun _ => [1]) c10Tokenize c10Cls (ascii "6d6574616964")
      (ascii "h") c10Tx 0 c10TxIn [2, 2] c10Pin0 (by decide) (by decide)
      (by decide)
  exact ⟨p, h1, h2, h3, h4⟩

/-!
## Claim C3: OP_RETURN priority and first-match-only
-/

/-- An output "matches" the OP_RETURN envelope scan: it is classified
`"nonstandard"` and its locking script parses to a PIN. -/
def isEnvelopeMatch (tokenize : List Nat → TokStream) (cls : List Nat → ClassInfo)
    (pid : List Nat) (out : WTxOut) : Prop :=
  (cls out.pkScript).className = ascii "nonstandard" ∧
    (btcParseOpReturnScript tokenize pid out.pkScript).isSome = true

theorem opReturnPinLoop_owner_empty (sha : List Nat → List Nat)
    (tokenize : List Nat → TokStream) (cls : List Nat → ClassInfo)
    (pid txHash : List Nat) (tx : WMsgTx)
    (hown : (getOpReturnOwner cls tx).1 = []) :
    ∀ (outs : List WTxOut) (i0 : Nat),
      opReturnPinLoop sha tokenize cls pid txHash tx i0 outs = [] := by
  intro outs
  induction outs with
  | nil => intro i0; rfl
  | cons out rest ih =>
    intro i0
    unfold opReturnPinLoop
    split
    · split
      all_goals exact ih (i0 + 1)
    · exact ih (i0 + 1)

theorem opReturnPinLoop_first_match (sha : List Nat → List Nat)
    (tokenize : List Nat → TokStream) (cls : List Nat → ClassInfo)
    (pid txHash : List Nat) (tx : WMsgTx) :
    ∀ (outs : List WTxOut) (i0 : Nat) (p : Pin) (l : List Pin),
      opReturnPinLoop sha tokenize cls pid txHash tx i0 outs = p :: l →
      l = [] ∧ ∃ k, k < outs.length ∧ p.inscriptionTxIndex = i0 + k ∧
        isEnvelopeMatch tokenize cls pid (outs.getD k ⟨[], 0⟩) ∧
        ∀ j < k, ¬ isEnvelopeMatch tokenize cls pid (outs.getD j ⟨[], 0⟩) := by
  intro outs
  induction outs with
  | nil =>
    intro i0 p l h
    exact absurd h (by simp [opReturnPinLoop])
  | cons out rest ih =>
    intro i0 p l h
    unfold opReturnPinLoop at h
    split at h
    · rename_i hcls
      split at h
      · rename_i hparse
        obtain ⟨hl, k, hk, hidx, hm, hfirst⟩ := ih (i0 + 1) p l h
        refine ⟨hl, k + 1, by simpa using Nat.succ_lt_succ hk, by omega, ?_, ?_⟩
        · simpa using hm
        · intro j hj
          cases j with
          | zero =>
            rintro ⟨-, hps⟩
            rw [List.getD_cons_zero, hparse] at hps
            simp at hps
          | succ j' =>
            rw [List.getD_cons_succ]
            exact hfirst j' (by omega)
      · rename_i pin hparse
        split at h
        · rename_i hown
          rw [opReturnPinLoop_owner_empty sha tokenize cls pid txHash tx hown]
            at h
          exact absurd h (by simp)
        · cases h
          refine ⟨rfl, 0, by simp, by simp, ⟨hcls, by rw [List.getD_cons_zero, hparse]; rfl⟩,
            fun j hj => absurd hj (by omega)⟩
    · rename_i hcls
      obtain ⟨hl, k, hk, hidx, hm, hfirst⟩ := ih (i0 + 1) p l h
      refine ⟨hl, k + 1, by simpa using Nat.succ_lt_succ hk, by omega, ?_, ?_⟩
      · simpa using hm
      · intro j hj
        cases j with
        | zero =>
          rintro ⟨hc, -⟩
          rw [List.getD_cons_zero] at hc
          exact hcls hc
        | succ j' =>
          rw [List.getD_cons_succ]
          exact hfirst j' (by omega)

/-- C3: the OP_RETURN scan runs first and, when it yields any PIN, the
witness scan is skipped and the returned list is exactly the OP_RETURN
result; the OP_RETURN scan yields at most one PIN, and that PIN comes from
the first matching output — no earlier output matches, and later matching
outputs contribute nothing. -/
theorem c3_opreturn_priority (sha : List Nat → List Nat)
    (tokenize : List Nat → TokStream) (cls : List Nat → ClassInfo)
    (pid txHash : List Nat) (tx : WMsgTx) :
    (btcParseOpReturnPins sha tokenize cls pid txHash tx ≠ [] →
      btcParsePins sha tokenize cls pid txHash tx =
        btcParseOpReturnPins sha tokenize cls pid txHash tx) ∧
    (btcParseOpReturnPins sha tokenize cls pid txHash tx = [] →
      btcParsePins sha tokenize cls pid txHash tx =
        btcParseWitnessPins sha tokenize cls pid txHash tx) ∧
    (btcParseOpReturnPins sha tokenize cls pid txHash tx).length ≤ 1 ∧
    (∀ (p : Pin) (l : List Pin),
      btcParseOpReturnPins sha tokenize cls pid txHash tx = p :: l →
      l = [] ∧ ∃ k, k < tx.txOuts.length ∧ p.inscriptionTxIndex = k ∧
        isEnvelopeMatch tokenize cls pid (tx.txOuts.getD k ⟨[], 0⟩) ∧
        ∀ j < k, ¬ isEnvelopeMatch tokenize cls pid (tx.txOuts.getD j ⟨[], 0⟩)) := by
  refine ⟨?_, ?_, ?_, ?_⟩
  · intro hne
    unfold btcParsePins
    rw [if_pos hne]
  · intro hnil
    unfold btcParsePins
    rw [if_neg (by simp [hnil])]
  · rcases hres : btcParseOpReturnPins sha tokenize cls pid txHash tx
      with _ | ⟨p, l⟩
    · simp
    · obtain ⟨hl, -⟩ := opReturnPinLoop_first_match sha tokenize cls pid txHash
        tx tx.txOuts 0 p l hres
      simp [hl]
  · intro p l h
    obtain ⟨hl, k, hk, hidx, hm, hfirst⟩ := opReturnPinLoop_first_match sha
      tokenize cls pid txHash tx tx.txOuts 0 p l h
    exact ⟨hl, k, hk, by omega, hm, hfirst⟩

/-- Tokenizer run of an OP_RETURN create envelope with six fields. -/
def c3Toks : List Tok :=
  [⟨OP_RETURN, none⟩, ⟨6, some (ascii "metaid")⟩, ⟨6, some (ascii "create")⟩,
    ⟨2, some (ascii "/a")⟩, ⟨1, some (ascii "0")⟩, ⟨1, some (ascii "1")⟩,
    ⟨1, some (ascii "t")⟩, ⟨1, some (ascii "x")⟩]

/-- Concrete external tokenizer: script `[1]` carries the envelope. -/
def c3Tokenize : List Nat → TokStream :=
  fun s => if s = [1] then ⟨c3Toks, false⟩ else ⟨[], false⟩

/-- Concrete external classifier: script `[1]` is nonstandard with no
addresses, every other script is standard with one address. -/
def c3Cls : List Nat → ClassInfo :=
  fun s => if s = [1] then ⟨ascii "nonstandard", []⟩
    else ⟨ascii "pubkeyhash", [ascii "addrA"]⟩

/-- A two-output transaction: an envelope output followed by an owner output. -/
def c3Tx : WMsgTx := ⟨[], [⟨[1], 0⟩, ⟨[2], 7⟩]⟩

/-- C3 (witness): on the concrete envelope-carrying transaction the OP_RETURN
scan yields a non-empty result, the parse returns exactly that result, and it
has at most one element. -/
theorem c3_opreturn_priority_witness :
    btcParseOpReturnPins (fun _ => []) c3Tokenize c3Cls (ascii "6d6574616964")
      (ascii "h") c3Tx ≠ [] ∧
    btcParsePins (fun _ => []) c3Tokenize c3Cls (ascii "6d6574616964")
      (ascii "h") c3Tx =
      btcParseOpReturnPins (fun _ => []) c3Tokenize c3Cls (ascii "6d6574616964")
        (ascii "h") c3Tx ∧
    (btcParseOpReturnPins (fun _ => []) c3Tokenize c3Cls (ascii "6d6574616964")
      (ascii "h") c3Tx).length ≤ 1 := by
  have h := c3_opreturn_priority (fun _ => []) c3Tokenize c3Cls
    (ascii "6d6574616964") (ascii "h") c3Tx
  exact ⟨by decide, h.1 (by decide), h.2.2.1⟩
